import Mathlib

/-!
Verification development for the BRICS EdTech patent-analysis pipeline.

The Python sources under scripts/ are shallowly embedded below:
pure string/record manipulation becomes Lean functions on `String` /
`List Char`; Python dict rows become association lists over `PyVal`;
the retry loops become fueled recursive functions parametrised by an
oracle giving the outcome of the external call on each attempt; code
that can raise returns `Except`.  Python's `json.loads` / `json.dumps`
(standard library, external to the repository) are modelled by a small
executable JSON parser / printer over an inductive `JVal`.
-/

/-- Whitespace set used by Python's `str.strip` and the regex class
backslash-s, restricted to the ASCII range actually exercised by the
pipeline data. -/
def isPyWs (c : Char) : Bool :=
  c = ' ' || c = '\t' || c = '\n' || c = '\r' || c = '\x0b' || c = '\x0c'

/-- Model of Python `str.strip()` on a character list: drop whitespace
from both ends. -/
def stripList (l : List Char) : List Char :=
  ((l.dropWhile isPyWs).reverse.dropWhile isPyWs).reverse

/-- Model of Python `str.strip()`. -/
def pyStrip (s : String) : String :=
  String.mk (stripList s.toList)

/-- Python values that can appear in a CSV row produced by
`pandas.DataFrame.to_dict(orient="records")`: strings, integers,
booleans, `None`, and the float `nan` that pandas uses for a missing
cell. -/
inductive PyVal where
  | vstr (s : String)
  | vint (n : Int)
  | vbool (b : Bool)
  | vnone
  | vnan
deriving DecidableEq

/-- Python truthiness for `PyVal` (`nan` is truthy, `""`/`0`/`False`/
`None` are falsy). -/
def pyTruthy : PyVal → Bool
  | .vstr s => s ≠ ""
  | .vint n => n ≠ 0
  | .vbool b => b
  | .vnone => false
  | .vnan => true

/-- Python `str(...)` on a `PyVal`. -/
def pyStr : PyVal → String
  | .vstr s => s
  | .vint n => toString n
  | .vbool b => if b then ("True") else ("False")
  | .vnone => ("None")
  | .vnan => ("nan")

/-- Python `a or b`: `a` if truthy, else `b`. -/
def pyOr (a b : PyVal) : PyVal :=
  if pyTruthy a then a else b

/-- A CSV row: association list from column name to value
(`row.get(k, d)` is `pyGet row k d`). -/
def Row := List (String × PyVal)

/-- Python `row.get(key, default)`. -/
def pyGet (row : Row) (key : String) (dflt : PyVal) : PyVal :=
  match row.find? (fun p => p.1 = key) with
  | some p => p.2
  | none => dflt

deriving instance DecidableEq for Except

/-! ### Identity resolver (scripts/01_get_patents.py lines 62-90) -/

/-- Character sequence of the literal regex segment `/patent/`. -/
def patentSeg : List Char := ['/', 'p', 'a', 't', 'e', 'n', 't', '/']

/-- Attempt to match the regex `/patent/([^/]+)/` at the head of `l`,
returning the capture group.  The greedy class `[^/]+` takes the maximal
run of non-slash characters, which must be nonempty and followed by a
slash. -/
def matchPatentAt (l : List Char) : Option (List Char) :=
  if l.take 8 = patentSeg then
    let after := l.drop 8
    let run := after.takeWhile (fun c => c ≠ '/')
    if run = [] then none
    else if after.drop run.length = [] then none
    else some run
  else none

/-- Leftmost match of `/patent/([^/]+)/` in `l` (the semantics of
`re.search`). -/
def searchPatent : List Char → Option (List Char)
  | [] => none
  | c :: rest =>
    match matchPatentAt (c :: rest) with
    | some g => some g
    | none => searchPatent rest

/-- Embedding of `extract_patent_id` specialised to a string URL:
`re.search(r"/patent/([^/]+)/", url)` and `m.group(1).strip()`. -/
def extract_patent_id_s (url : String) : String :=
  if url = "" then ""
  else
    match searchPatent url.toList with
    | some g => pyStrip (String.mk g)
    | none => ""

/-- Embedding of `extract_patent_id(url)` (01_get_patents.py lines
62-70).  `if not url: return ""` covers every falsy value; a truthy
non-string reaches `re.search`, which raises `TypeError` in Python,
modelled as `Except.error`. -/
def extract_patent_id (url : PyVal) : Except String String :=
  if pyTruthy url = false then .ok ""
  else
    match url with
    | .vstr s => .ok (extract_patent_id_s s)
    | _ => .error ("TypeError: expected string or bytes-like object")

/-- Embedding of `normalize_id(pid)` (01_get_patents.py lines 72-77):
`re.sub(r"[\s-]", "", pid.strip().upper())`. -/
def normalize_id (pid : String) : String :=
  String.mk ((((pyStrip pid).toList.map Char.toUpper)).filter
    (fun c => !(isPyWs c || c = '-')))

/-- Embedding of `get_csv_patent_id(row)` (01_get_patents.py lines
79-90): the stringified `id` column if non-blank after stripping, else
the id extracted from the `result link` column, always normalised. -/
def get_csv_patent_id (row : Row) : Except String String :=
  let pid := pyStrip (pyStr (pyOr (pyGet row ("id") (.vstr "")) (.vstr "")))
  if pid ≠ "" then .ok (normalize_id pid)
  else
    match extract_patent_id (pyGet row ("result link") (.vstr "")) with
    | .error e => .error e
    | .ok pid2 => .ok (if pid2 ≠ "" then normalize_id pid2 else "")

example : get_csv_patent_id [(("id"), .vstr ("us-123 a"))] = .ok ("US123A") := by decide

example :
    get_csv_patent_id
      [(("result link"), .vstr ("https://patents.google.com/patent/US1234567A/en"))]
      = .ok ("US1234567A") := by decide

example : get_csv_patent_id [(("result link"), PyVal.vnan)]
    = .error ("TypeError: expected string or bytes-like object") := by decide

/-! ### Chunked JSON store (scripts/01_get_patents.py lines 150-242)

A chunk directory is modelled as the ordered list of its
`all_patents_NNN.json` files as returned by `list_existing_json`:
pairs of the numeric index and the file's parse result, where `none`
models a file whose content fails `json.load` and `some entries` a file
holding a JSON array of records.  Record contents are opaque to
`append_patents`, so it is polymorphic in the record type. -/

/-- Fueled worker for `chunkEvery`; the fuel only bounds the recursion
depth so the definition is structurally recursive. -/
def chunkEveryF (c : Nat) : Nat → List α → List (List α)
  | 0, _ => []
  | _, [] => []
  | fuel + 1, x :: xs => (x :: xs).take c :: chunkEveryF c fuel ((x :: xs).drop c)

/-- Split a list into consecutive runs of `c` elements, the final run
possibly shorter: the slices `new_list[i:i+chunk]` taken by the
`for i in range(0, len(new_list), chunk)` loop of `append_patents`. -/
def chunkEvery (c : Nat) (l : List α) : List (List α) :=
  chunkEveryF c l.length l

/-- Attach consecutive file indices starting at `idx` to freshly
written chunk contents. -/
def withIndices (idx : Nat) : List (List α) → List (Nat × Option (List α))
  | [] => []
  | c :: cs => (idx, some c) :: withIndices (idx + 1) cs

/-- Embedding of `append_patents(new_list, folder, chunk)`
(01_get_patents.py lines 202-242).  An empty `new_list` is a no-op.
Otherwise, if a last file exists, its parsed content (an unparsable
file counts as the empty list, line 219-220) is filled up to `chunk`
records when it has room, and the remaining records are written as new
files of `chunk` records each at increasing indices. -/
def append_patents (new_list : List α) (store : List (Nat × Option (List α)))
    (chunk : Nat) : List (Nat × Option (List α)) :=
  if new_list.isEmpty then store
  else
    match store.getLast? with
    | none => withIndices 0 (chunkEvery chunk new_list)
    | some (last_idx, raw) =>
      let content := raw.getD []
      if content.length < chunk then
        store.dropLast ++
          (last_idx, some (content ++ new_list.take (chunk - content.length))) ::
            withIndices (last_idx + 1)
              (chunkEvery chunk (new_list.drop (chunk - content.length)))
      else
        store ++ withIndices (last_idx + 1) (chunkEvery chunk new_list)

/-- All records stored in parseable chunk files, in file order
(an unparsable file contributes nothing). -/
def storeEntries : List (Nat × Option (List α)) → List α
  | [] => []
  | p :: ps => p.2.getD [] ++ storeEntries ps

/-- A record as inspected by `load_processed_ids`: the three fields it
reads via `entry.get(field, "")`, a missing field being equivalent to
the empty (falsy) string.  `payload` keeps distinct records distinct. -/
structure Entry where
  original_id : String := ""
  url : String := ""
  id : String := ""
  payload : Nat := 0
deriving DecidableEq

/-- Key extracted from one record by the scan loop of
`load_processed_ids` (01_get_patents.py lines 185-199): the normalised
`original_id` if truthy, else the normalised URL-embedded id if that
extraction is truthy, else the normalised `id` if truthy, else nothing. -/
def entryKey (e : Entry) : Option String :=
  if e.original_id ≠ "" then some (normalize_id e.original_id)
  else
    let pid := extract_patent_id_s e.url
    if pid ≠ "" then some (normalize_id pid)
    else if e.id ≠ "" then some (normalize_id e.id)
    else none

/-- Embedding of `load_processed_ids(folder)` (01_get_patents.py lines
167-200): scan every chunk file, skip the ones that fail to parse, and
collect each record's key into a set. -/
def load_processed_ids (store : List (Nat × Option (List Entry))) : Finset String :=
  store.foldl
    (fun acc p =>
      match p.2 with
      | none => acc
      | some entries =>
        entries.foldl
          (fun a e =>
            match entryKey e with
            | some k => insert k a
            | none => a) acc)
    ∅

example :
    append_patents [1, 2, 3, 4, 5] [(0, some [10, 20])] 3
      = [(0, some [10, 20, 1]), (1, some [2, 3, 4]), (2, some [5])] := by
  decide

example :
    append_patents [1, 2, 3] [(4, none)] 2
      = [(4, some [1, 2]), (5, some [3])] := by
  decide

example : append_patents ([] : List Nat) [(0, some [1])] 3 = [(0, some [1])] := by
  decide

/-! ### Lemmas about the chunk store -/

theorem chunkEveryF_congr (c : Nat) (hc : 0 < c) :
    ∀ (f g : Nat) (l : List α), l.length ≤ f → l.length ≤ g →
      chunkEveryF c f l = chunkEveryF c g l := by
  intro f
  induction f with
  | zero =>
    intro g l hf hg
    match l with
    | [] => cases g <;> rfl
    | _ :: _ => simp at hf
  | succ f ih =>
    intro g l hf hg
    match l with
    | [] => cases g <;> rfl
    | x :: xs =>
      match g with
      | 0 => simp at hg
      | g + 1 =>
        show (x :: xs).take c :: chunkEveryF c f ((x :: xs).drop c)
            = (x :: xs).take c :: chunkEveryF c g ((x :: xs).drop c)
        simp only [List.length_cons] at hf hg
        have hdf : ((x :: xs).drop c).length ≤ f := by
          simp only [List.length_drop, List.length_cons]
          omega
        have hdg : ((x :: xs).drop c).length ≤ g := by
          simp only [List.length_drop, List.length_cons]
          omega
        rw [ih g _ hdf hdg]

theorem chunkEveryF_eq_chunkEvery (c : Nat) (hc : 0 < c)
    (f : Nat) (l : List α) (hl : l.length ≤ f) :
    chunkEveryF c f l = chunkEvery c l :=
  chunkEveryF_congr c hc f l.length l hl le_rfl

theorem chunkEvery_nil (c : Nat) : chunkEvery c ([] : List α) = [] := rfl

theorem chunkEvery_cons (c : Nat) (hc : 0 < c) (x : α) (xs : List α) :
    chunkEvery c (x :: xs) = (x :: xs).take c :: chunkEvery c ((x :: xs).drop c) := by
  have hdrop2 : ((x :: xs).drop c).length ≤ xs.length := by
    simp only [List.length_drop, List.length_cons]
    omega
  show (x :: xs).take c :: chunkEveryF c xs.length ((x :: xs).drop c) = _
  rw [chunkEveryF_eq_chunkEvery c hc xs.length _ hdrop2]

theorem chunkEvery_ne_nil (c : Nat) (hc : 0 < c) (l : List α) (hl : l ≠ []) :
    chunkEvery c l ≠ [] := by
  match l with
  | [] => exact absurd rfl hl
  | x :: xs => rw [chunkEvery_cons c hc]; simp

theorem chunkEvery_flatten (c : Nat) (hc : 0 < c) (l : List α) :
    (chunkEvery c l).flatten = l := by
  have H : ∀ (n : Nat) (l : List α), l.length ≤ n → (chunkEvery c l).flatten = l := by
    intro n
    induction n with
    | zero =>
      intro l hl
      match l with
      | [] => rfl
      | _ :: _ => simp at hl
    | succ n ih =>
      intro l hl
      match l with
      | [] => rfl
      | x :: xs =>
        have hdrop : ((x :: xs).drop c).length ≤ n := by
          simp only [List.length_drop, List.length_cons]
          simp only [List.length_cons] at hl
          omega
        rw [chunkEvery_cons c hc, List.flatten_cons, ih _ hdrop,
          List.take_append_drop]
  exact H l.length l le_rfl

theorem chunkEvery_mem_length (c : Nat) (hc : 0 < c) (l : List α) :
    ∀ ch ∈ chunkEvery c l, ch ≠ [] ∧ ch.length ≤ c := by
  have H : ∀ (n : Nat) (l : List α), l.length ≤ n →
      ∀ ch ∈ chunkEvery c l, ch ≠ [] ∧ ch.length ≤ c := by
    intro n
    induction n with
    | zero =>
      intro l hl ch hch
      match l with
      | [] => simp [chunkEvery_nil] at hch
      | _ :: _ => simp at hl
    | succ n ih =>
      intro l hl ch hch
      match l with
      | [] => simp [chunkEvery_nil] at hch
      | x :: xs =>
        have hdrop : ((x :: xs).drop c).length ≤ n := by
          simp only [List.length_drop, List.length_cons]
          simp only [List.length_cons] at hl
          omega
        rw [chunkEvery_cons c hc] at hch
        rcases List.mem_cons.1 hch with h | h
        · subst h
          refine ⟨?_, ?_⟩
          · intro hnil
            have := congrArg List.length hnil
            simp only [List.length_take, List.length_cons, List.length_nil] at this
            omega
          · simp only [List.length_take]
            omega
        · exact ih _ hdrop ch h
  exact H l.length l le_rfl

theorem chunkEvery_dropLast_length (c : Nat) (hc : 0 < c) (l : List α) :
    ∀ ch ∈ (chunkEvery c l).dropLast, ch.length = c := by
  have H : ∀ (n : Nat) (l : List α), l.length ≤ n →
      ∀ ch ∈ (chunkEvery c l).dropLast, ch.length = c := by
    intro n
    induction n with
    | zero =>
      intro l hl ch hch
      match l with
      | [] => simp [chunkEvery_nil] at hch
      | _ :: _ => simp at hl
    | succ n ih =>
      intro l hl ch hch
      match l with
      | [] => simp [chunkEvery_nil] at hch
      | x :: xs =>
        have hdrop : ((x :: xs).drop c).length ≤ n := by
          simp only [List.length_drop, List.length_cons]
          simp only [List.length_cons] at hl
          omega
        rw [chunkEvery_cons c hc] at hch
        by_cases hrest : (x :: xs).drop c = []
        · rw [hrest, chunkEvery_nil] at hch
          simp at hch
        · have hne := chunkEvery_ne_nil c hc _ hrest
          rw [List.dropLast_cons_of_ne_nil hne] at hch
          rcases List.mem_cons.1 hch with h | h
          · subst h
            have hlen : c < (x :: xs).length := by
              by_contra hle
              exact hrest (List.drop_eq_nil_of_le (by omega))
            simp only [List.length_take]
            omega
          · exact ih _ hdrop ch h
  exact H l.length l le_rfl

theorem withIndices_map_fst (idx : Nat) (cs : List (List α)) :
    (withIndices idx cs).map Prod.fst = List.range' idx cs.length := by
  induction cs generalizing idx with
  | nil => rfl
  | cons c cs ih => simp [withIndices, List.range'_succ, ih]

theorem storeEntries_withIndices (idx : Nat) (cs : List (List α)) :
    storeEntries (withIndices idx cs) = cs.flatten := by
  induction cs generalizing idx with
  | nil => rfl
  | cons c cs ih => simp [withIndices, storeEntries, ih]

theorem storeEntries_append (a b : List (Nat × Option (List α))) :
    storeEntries (a ++ b) = storeEntries a ++ storeEntries b := by
  induction a with
  | nil => rfl
  | cons p ps ih => simp [storeEntries, ih]

theorem mem_storeEntries_iff (st : List (Nat × Option (List α))) (x : α) :
    x ∈ storeEntries st ↔ ∃ i l, (i, some l) ∈ st ∧ x ∈ l := by
  induction st with
  | nil => simp [storeEntries]
  | cons p ps ih =>
    match p with
    | (i, none) =>
      simp only [storeEntries, Option.getD_none, List.nil_append, ih, List.mem_cons]
      constructor
      · rintro ⟨j, l, hl, hx⟩
        exact ⟨j, l, Or.inr hl, hx⟩
      · rintro ⟨j, l, hl | hl, hx⟩
        · cases hl
        · exact ⟨j, l, hl, hx⟩
    | (i, some l0) =>
      simp only [storeEntries, Option.getD_some, List.mem_append, ih, List.mem_cons]
      constructor
      · rintro (hx | ⟨j, l, hl, hx⟩)
        · exact ⟨i, l0, Or.inl rfl, hx⟩
        · exact ⟨j, l, Or.inr hl, hx⟩
      · rintro ⟨j, l, hl | hl, hx⟩
        · cases hl
          exact Or.inl hx
        · exact Or.inr ⟨j, l, hl, hx⟩

theorem storeEntries_append_patents (c : Nat) (hc : 0 < c)
    (xs : List α) (store : List (Nat × Option (List α))) :
    storeEntries (append_patents xs store c) = storeEntries store ++ xs := by
  by_cases hxs : xs.isEmpty
  · have hnil : xs = [] := by cases xs <;> simp_all
    subst hnil
    simp [append_patents, storeEntries]
  · rcases List.eq_nil_or_concat store with hst | ⟨s, p, hst⟩
    · subst hst
      simp only [append_patents, hxs, Bool.false_eq_true, if_false,
        List.getLast?_nil]
      rw [storeEntries_withIndices, chunkEvery_flatten c hc]
      rfl
    · subst hst
      obtain ⟨i, raw⟩ := p
      simp only [append_patents, hxs, Bool.false_eq_true, if_false,
        List.concat_eq_append, List.getLast?_concat, List.dropLast_concat]
      by_cases hfill : (raw.getD []).length < c
      · rw [if_pos hfill]
        rw [storeEntries_append, storeEntries_append]
        simp only [storeEntries, List.append_nil, Option.getD_some]
        rw [storeEntries_withIndices, chunkEvery_flatten c hc]
        rcases raw with _ | l
        · simp
        · simp only [Option.getD_some]
          rw [List.append_assoc, List.append_assoc, List.take_append_drop]
      · rw [if_neg hfill]
        rw [storeEntries_append, storeEntries_withIndices, chunkEvery_flatten c hc,
          storeEntries_append, List.append_assoc]

/-! ### Claims about the chunk store -/

/-- C1: appending to a store whose last chunk holds fewer than
`capacity` records first fills that chunk up to `capacity` (existing
entries kept in order, new ones after), then splits the remaining
records into new chunks of exactly `capacity` records each — only the
final new chunk may be smaller and none is empty — written at strictly
increasing consecutive indices continuing from the last index. -/
theorem c1_append_fills_last_then_splits {α : Type} (c : Nat) (hc : 0 < c)
    (s : List (Nat × Option (List α))) (i : Nat) (l : List α)
    (hl : l.length < c) (xs : List α) :
    append_patents xs (s ++ [(i, some l)]) c
      = s ++ (i, some (l ++ xs.take (c - l.length))) ::
          withIndices (i + 1) (chunkEvery c (xs.drop (c - l.length)))
    ∧ (l ++ xs.take (c - l.length)).length = min c (l.length + xs.length)
    ∧ (∀ ch ∈ chunkEvery c (xs.drop (c - l.length)), ch ≠ [] ∧ ch.length ≤ c)
    ∧ (∀ ch ∈ (chunkEvery c (xs.drop (c - l.length))).dropLast, ch.length = c)
    ∧ (withIndices (i + 1) (chunkEvery c (xs.drop (c - l.length)))).map Prod.fst
        = List.range' (i + 1) (chunkEvery c (xs.drop (c - l.length))).length := by
  refine ⟨?_, ?_, chunkEvery_mem_length c hc _, chunkEvery_dropLast_length c hc _,
    withIndices_map_fst _ _⟩
  · match xs with
    | [] =>
      simp [append_patents, chunkEvery_nil, withIndices]
    | x :: tl =>
      have hx : ((x :: tl).isEmpty : Bool) = false := rfl
      simp only [append_patents, hx, Bool.false_eq_true, if_false,
        List.getLast?_concat, List.dropLast_concat, Option.getD_some]
      rw [if_pos hl]
  · simp only [List.length_append, List.length_take]
    omega

/-- C1 witness: with capacity 3, a last chunk holding 2 records, and 5
new records, the last chunk ends at 3 records and two new chunks of 3
and 1 records are created. -/
theorem c1_append_fills_last_then_splits_witness :
    append_patents [1, 2, 3, 4, 5] [(0, some [10, 20])] 3
      = [(0, some [10, 20, 1]), (1, some [2, 3, 4]), (2, some [5])] := by
  have h := (c1_append_fills_last_then_splits 3 (by decide) [] 0 [10, 20]
    (by decide) [1, 2, 3, 4, 5]).1
  exact (by simpa using h : append_patents [1, 2, 3, 4, 5] [(0, some [10, 20])] 3 = _).trans
    (by decide)

/-- C9: when the last existing chunk file fails to parse, `append`
treats its content as empty and replaces the file with only the newly
appended records (up to `capacity` of them, the rest going to new
chunks), discarding the unparsable previous contents instead of
preserving them or aborting. -/
theorem c9_append_replaces_unparsable_last {α : Type} (c : Nat) (hc : 0 < c)
    (s : List (Nat × Option (List α))) (i : Nat) (xs : List α) (hxs : xs ≠ []) :
    append_patents xs (s ++ [(i, none)]) c
      = s ++ (i, some (xs.take c)) :: withIndices (i + 1) (chunkEvery c (xs.drop c)) := by
  match xs with
  | [] => exact absurd rfl hxs
  | x :: tl =>
    have hx : ((x :: tl).isEmpty : Bool) = false := rfl
    simp only [append_patents, hx, Bool.false_eq_true, if_false,
      List.getLast?_concat, List.dropLast_concat, Option.getD_none]
    rw [if_pos (by simpa using hc)]
    simp

/-- C9 witness: capacity 2, one unparsable chunk at index 4, appending
three records replaces it with the first two and writes the third to a
new chunk at index 5. -/
theorem c9_append_replaces_unparsable_last_witness :
    append_patents [1, 2, 3] [(4, none)] 2 = [(4, some [1, 2]), (5, some [3])] := by
  have h := c9_append_replaces_unparsable_last 2 (by decide) [] 4 [1, 2, 3] (by decide)
  exact (by simpa using h : append_patents [1, 2, 3] [(4, none)] 2 = _).trans (by decide)

/-- Inner scan loop of `load_processed_ids` over one parsed chunk,
expressed as a set union. -/
theorem entries_fold_insert (entries : List Entry) :
    ∀ acc : Finset String,
      entries.foldl
        (fun a e =>
          match entryKey e with
          | some k => insert k a
          | none => a) acc
      = acc ∪ (entries.filterMap entryKey).toFinset := by
  induction entries with
  | nil => intro acc; simp
  | cons e es ih =>
    intro acc
    simp only [List.foldl_cons, List.filterMap_cons]
    cases hk : entryKey e with
    | none => rw [ih acc]
    | some k =>
      rw [ih (insert k acc)]
      ext a
      simp only [Finset.mem_union, Finset.mem_insert, List.mem_toFinset,
        List.mem_cons]
      tauto

/-- The key set computed by `load_processed_ids` is the set of keys of
all records in parseable chunks. -/
theorem load_processed_ids_eq (store : List (Nat × Option (List Entry))) :
    load_processed_ids store = ((storeEntries store).filterMap entryKey).toFinset := by
  have H : ∀ (st : List (Nat × Option (List Entry))) (acc : Finset String),
      st.foldl
        (fun acc p =>
          match p.2 with
          | none => acc
          | some entries =>
            entries.foldl
              (fun a e =>
                match entryKey e with
                | some k => insert k a
                | none => a) acc) acc
      = acc ∪ ((storeEntries st).filterMap entryKey).toFinset := by
    intro st
    induction st with
    | nil => intro acc; simp [storeEntries]
    | cons p ps ih =>
      intro acc
      simp only [List.foldl_cons]
      match p with
      | (i, none) =>
        dsimp only
        rw [ih acc]
        simp [storeEntries]
      | (i, some entries) =>
        dsimp only
        rw [entries_fold_insert, ih]
        simp only [storeEntries, Option.getD_some, List.filterMap_append,
          List.toFinset_append]
        rw [Finset.union_assoc]
  rw [load_processed_ids, H]
  simp

/-- C2: for every chunk directory and list of new records with
pairwise-distinct resolvable keys, the key set loaded after an append
is exactly the union of the originally loaded key set and the new
records' keys (a set, hence duplicate-free). -/
theorem c2_load_append_load_is_union (c : Nat) (hc : 0 < c)
    (store : List (Nat × Option (List Entry))) (xs : List Entry)
    (hres : ∀ r ∈ xs, (entryKey r).isSome)
    (hdist : xs.Pairwise (fun a b => entryKey a ≠ entryKey b)) :
    load_processed_ids (append_patents xs store c)
      = load_processed_ids store ∪ (xs.filterMap entryKey).toFinset := by
  rw [load_processed_ids_eq, load_processed_ids_eq,
    storeEntries_append_patents c hc, List.filterMap_append, List.toFinset_append]

/-- C2 witness: a store with one parseable and one unparsable chunk,
plus two fresh records with distinct keys. -/
theorem c2_load_append_load_is_union_witness :
    load_processed_ids
        (append_patents [⟨"", "", "B2", 1⟩, ⟨"C-3", "", "", 2⟩]
          [(0, some [⟨"A1", "", "", 0⟩]), (1, none)] 2)
      = load_processed_ids [(0, some [⟨"A1", "", "", 0⟩]), (1, none)]
          ∪ ([⟨"", "", "B2", 1⟩, ⟨"C-3", "", "", 2⟩].filterMap entryKey).toFinset := by
  refine c2_load_append_load_is_union 2 (by decide) _ _ ?_ ?_
  · intro r hr
    fin_cases hr <;> decide
  · refine List.pairwise_cons.2 ⟨?_, List.pairwise_singleton _ _⟩
    intro b hb
    have hbeq : b = ⟨"C-3", "", "", 2⟩ := by simpa using hb
    subst hbeq
    decide

/-! ### JSON values, parser and printer

`json.loads` / `json.dumps` are Python standard-library collaborators
of the scripts, modelled here by an executable parser and printer over
an inductive `JVal`.  The model covers the JSON fragment the pipeline
exchanges with the LLM API: objects, arrays, strings with the common
escapes, integers, booleans and null. -/

inductive JVal where
  | jnull
  | jbool (b : Bool)
  | jnum (n : Int)
  | jstr (s : String)
  | jarr (xs : List JVal)
  | jobj (kvs : List (String × JVal))

/-- JSON whitespace accepted between tokens by `json.loads`. -/
def isJsonWs (c : Char) : Bool :=
  c = ' ' || c = '\t' || c = '\n' || c = '\r'

/-- Decode one backslash escape inside a JSON string literal. -/
def unescapeChar (c : Char) : Option Char :=
  if c = '"' then some '"'
  else if c = '\\' then some '\\'
  else if c = '/' then some '/'
  else if c = 'n' then some '\n'
  else if c = 't' then some '\t'
  else if c = 'r' then some '\r'
  else if c = 'b' then some '\x08'
  else if c = 'f' then some '\x0c'
  else none

/-- Parse the remainder of a JSON string literal (after the opening
quote), returning its characters and the rest of the input. -/
def parseStr : List Char → Option (List Char × List Char)
  | [] => none
  | '"' :: r => some ([], r)
  | '\\' :: e :: r =>
    match unescapeChar e with
    | none => none
    | some c =>
      match parseStr r with
      | none => none
      | some (s, r2) => some (c :: s, r2)
  | c :: r =>
    match parseStr r with
    | none => none
    | some (s, r2) => some (c :: s, r2)

/-- Numeric value of a digit run. -/
def digitsVal (l : List Char) : Nat :=
  l.foldl (fun a c => a * 10 + (c.toNat - 48)) 0

/-- True when the character would continue a non-integer number
(floats are outside the modelled fragment). -/
def floatCont : List Char → Bool
  | [] => false
  | c :: _ => c = '.' || c = 'e' || c = 'E'

/-- Parse an integer literal. -/
def parseNum (l : List Char) : Option (Int × List Char) :=
  match l with
  | '-' :: r =>
    let ds := r.takeWhile Char.isDigit
    if ds.isEmpty then none
    else if floatCont (r.drop ds.length) then none
    else some (-(digitsVal ds : Int), r.drop ds.length)
  | r =>
    let ds := r.takeWhile Char.isDigit
    if ds.isEmpty then none
    else if floatCont (r.drop ds.length) then none
    else some ((digitsVal ds : Int), r.drop ds.length)

mutual

/-- Fueled JSON value parser (the fuel makes the mutual recursion
structural; `jparse` supplies enough fuel for its input). -/
def parseJVal : Nat → List Char → Option (JVal × List Char)
  | 0, _ => none
  | fuel + 1, l =>
    match l.dropWhile isJsonWs with
    | 'n' :: 'u' :: 'l' :: 'l' :: r => some (.jnull, r)
    | 't' :: 'r' :: 'u' :: 'e' :: r => some (.jbool true, r)
    | 'f' :: 'a' :: 'l' :: 's' :: 'e' :: r => some (.jbool false, r)
    | '"' :: r =>
      match parseStr r with
      | none => none
      | some (s, r2) => some (.jstr (String.mk s), r2)
    | '[' :: r => parseArr fuel r
    | '\x7b' :: r => parseObj fuel r
    | r =>
      match parseNum r with
      | none => none
      | some (n, r2) => some (.jnum n, r2)

/-- Parse the inside of a JSON array (after the opening bracket). -/
def parseArr : Nat → List Char → Option (JVal × List Char)
  | 0, _ => none
  | fuel + 1, l =>
    match l.dropWhile isJsonWs with
    | ']' :: r => some (.jarr [], r)
    | _ =>
      match parseElems fuel l with
      | none => none
      | some (xs, r) => some (.jarr xs, r)

/-- Parse one-or-more comma-separated array elements up to the closing
bracket. -/
def parseElems : Nat → List Char → Option (List JVal × List Char)
  | 0, _ => none
  | fuel + 1, l =>
    match parseJVal fuel l with
    | none => none
    | some (v, r) =>
      match r.dropWhile isJsonWs with
      | ',' :: r2 =>
        match parseElems fuel r2 with
        | none => none
        | some (xs, r3) => some (v :: xs, r3)
      | ']' :: r2 => some ([v], r2)
      | _ => none

/-- Parse the inside of a JSON object (after the opening brace). -/
def parseObj : Nat → List Char → Option (JVal × List Char)
  | 0, _ => none
  | fuel + 1, l =>
    match l.dropWhile isJsonWs with
    | '\x7d' :: r => some (.jobj [], r)
    | _ =>
      match parseMembers fuel l with
      | none => none
      | some (kvs, r) => some (.jobj kvs, r)

/-- Parse one-or-more comma-separated object members up to the closing
brace. -/
def parseMembers : Nat → List Char → Option (List (String × JVal) × List Char)
  | 0, _ => none
  | fuel + 1, l =>
    match l.dropWhile isJsonWs with
    | '"' :: r =>
      match parseStr r with
      | none => none
      | some (k, r1) =>
        match r1.dropWhile isJsonWs with
        | ':' :: r2 =>
          match parseJVal fuel r2 with
          | none => none
          | some (v, r3) =>
            match r3.dropWhile isJsonWs with
            | ',' :: r4 =>
              match parseMembers fuel r4 with
              | none => none
              | some (kvs, r5) => some ((String.mk k, v) :: kvs, r5)
            | '\x7d' :: r4 => some ([(String.mk k, v)], r4)
            | _ => none
        | _ => none
    | _ => none

end

/-- Model of `json.loads`: parse one JSON value, allowing surrounding
whitespace only; anything else fails (raises `JSONDecodeError`). -/
def jparse (s : String) : Option JVal :=
  match parseJVal (4 * s.toList.length + 4) s.toList with
  | some (v, rest) => if (rest.dropWhile isJsonWs).isEmpty then some v else none
  | none => none

/-- Python dict lookup on the members of a parsed JSON object:
with duplicate keys the last binding wins, as in `json.loads`. -/
def jlookup (kvs : List (String × JVal)) (k : String) : Option JVal :=
  match kvs.reverse.find? (fun p => p.1 = k) with
  | some p => some p.2
  | none => none

/-- Escape one character for a JSON string literal, as `json.dumps`
does for the characters in the modelled fragment. -/
def escChar (c : Char) : List Char :=
  if c = '"' then ['\\', '"']
  else if c = '\\' then ['\\', '\\']
  else if c = '\n' then ['\\', 'n']
  else if c = '\t' then ['\\', 't']
  else if c = '\r' then ['\\', 'r']
  else [c]

/-- Escape a string for a JSON string literal. -/
def jescape (s : String) : String :=
  String.mk (s.toList.map escChar).flatten

/-- Comma-space joiner used by `json.dumps` default separators. -/
def joinComma : List String → String
  | [] => ""
  | [x] => x
  | x :: y :: r => x ++ (", ") ++ joinComma (y :: r)

/-- Fueled worker for `jdump`. -/
def jdumpF : Nat → JVal → String
  | 0, _ => ""
  | fuel + 1, v =>
    match v with
    | .jnull => ("null")
    | .jbool true => ("true")
    | .jbool false => ("false")
    | .jnum n => toString n
    | .jstr s => ("\"") ++ jescape s ++ ("\"")
    | .jarr xs => ("[") ++ joinComma (xs.map (jdumpF fuel)) ++ ("]")
    | .jobj kvs =>
      ("\x7b") ++
        joinComma (kvs.map (fun kv =>
          ("\"") ++ jescape kv.1 ++ ("\": ") ++ jdumpF fuel kv.2)) ++
        ("\x7d")

example : jparse ("\x7b\"teaching_content\": true\x7d")
    = some (.jobj [(("teaching_content"), .jbool true)]) := rfl

example : jparse ("  \x7b \"a\" : [1, -2, null], \"b\": \"x\\\"y\" \x7d ")
    = some (.jobj [(("a"), .jarr [.jnum 1, .jnum (-2), .jnull]),
        (("b"), .jstr ("x\"y"))]) := rfl

example : jparse ("\x7b\"a\": \x7d") = none := rfl

example : jparse ("not json") = none := rfl

example : jdumpF 9 (.jobj [(("a"), .jnum 1), (("b"), .jstr ("x"))])
    = ("\x7b\"a\": 1, \"b\": \"x\"\x7d") := rfl

/-! ### Markdown-fence extraction (scripts/02 lines 43-59, scripts/05
lines 44-60, scripts/04 lines 92-120)

The three `extract_json` helpers are regex searches; the two patterns
used are embedded directly with Python `re` semantics: leftmost match
position, backtracking inside one position, `re.DOTALL` so that the
dot crosses newlines. -/

/-- The backtick character. -/
def btick : Char := '\x60'

/-- Does the input start with a three-backtick fence? -/
def isFence (l : List Char) : Bool :=
  l.take 3 = [btick, btick, btick]

/-- Does the input contain a three-backtick fence anywhere? -/
def hasFence : List Char → Bool
  | [] => false
  | c :: rest => isFence (c :: rest) || hasFence rest

/-- Does `\s*` followed by a closing fence match here?  This is the
part of both fence patterns that follows the captured closing brace;
`\s*` is greedy but the following backtick is not whitespace, so the
match is the maximal whitespace run. -/
def closeFence (l : List Char) : Bool :=
  isFence (l.dropWhile isPyWs)

/-- Body of the non-greedy group in `(\x7b.*?\x7d)` followed by
`\s*` and a closing fence: the lazy `.*?` stops at the first closing
brace whose tail matches, scanning left to right. -/
def bodyLazy : List Char → Option (List Char)
  | [] => none
  | c :: rest =>
    if c = '\x7d' && closeFence rest then some []
    else
      match bodyLazy rest with
      | none => none
      | some b => some (c :: b)

/-- Body of the greedy group in `(\x7b.*\x7d)` followed by `\s*` and a
closing fence: the greedy `.*` backtracks from the end, so the capture
ends at the last closing brace whose tail matches. -/
def bodyGreedy : List Char → Option (List Char)
  | [] => none
  | c :: rest =>
    match bodyGreedy rest with
    | some b => some (c :: b)
    | none =>
      if c = '\x7d' && closeFence rest then some []
      else none

/-- After the opening fence and optional `json` tag: `\s*` then the
brace-delimited capture with a lazy body. -/
def braceLazy (r : List Char) : Option (List Char) :=
  match r.dropWhile isPyWs with
  | '\x7b' :: rest =>
    match bodyLazy rest with
    | none => none
    | some b => some ('\x7b' :: (b ++ ['\x7d']))
  | _ => none

/-- After the opening fence and optional `json` tag: `\s*` then the
brace-delimited capture with a greedy body. -/
def braceGreedy (r : List Char) : Option (List Char) :=
  match r.dropWhile isPyWs with
  | '\x7b' :: rest =>
    match bodyGreedy rest with
    | none => none
    | some b => some ('\x7b' :: (b ++ ['\x7d']))
  | _ => none

/-- The literal `json` tag characters. -/
def jsonTag : List Char := ['j', 's', 'o', 'n']

/-- Match the full pattern at this position: a fence, the optional
(greedy, backtrackable) `json` tag, then the brace capture using the
given body strategy. -/
def matchFenceAt (body : List Char → Option (List Char)) (l : List Char) :
    Option (List Char) :=
  if isFence l then
    let r := l.drop 3
    match (if r.take 4 = jsonTag then body (r.drop 4) else none) with
    | some g => some g
    | none => body r
  else none

/-- Leftmost match of the lazy fenced-JSON pattern
(patterns of scripts 02/05). -/
def searchFenceLazy : List Char → Option (List Char)
  | [] => none
  | c :: rest =>
    match matchFenceAt braceLazy (c :: rest) with
    | some g => some g
    | none => searchFenceLazy rest

/-- Leftmost match of the greedy fenced-JSON pattern (script 04). -/
def searchFenceGreedy : List Char → Option (List Char)
  | [] => none
  | c :: rest =>
    match matchFenceAt braceGreedy (c :: rest) with
    | some g => some g
    | none => searchFenceGreedy rest

/-- Body of the any-content lazy pattern `\x60\x60\x60(.*?)\x60\x60\x60`:
everything up to the nearest closing fence. -/
def bodyAny : List Char → Option (List Char)
  | [] => none
  | c :: rest =>
    if isFence (c :: rest) then some []
    else
      match bodyAny rest with
      | none => none
      | some b => some (c :: b)

/-- Leftmost match of the any-content fenced pattern (second regex of
scripts 02/05). -/
def searchFenceAny : List Char → Option (List Char)
  | [] => none
  | c :: rest =>
    (if isFence (c :: rest) then bodyAny ((c :: rest).drop 3) else none).elim
      (searchFenceAny rest) some

/-- Embedding of `extract_json(text)` of scripts 02 and 05 (identical
in both): first the fenced-JSON regex, then any fenced content that
looks like a JSON object, else the stripped raw text. -/
def extract_json (text : String) : String :=
  match searchFenceLazy text.toList with
  | some g => String.mk g
  | none =>
    match searchFenceAny text.toList with
    | some g =>
      let candidate := pyStrip (String.mk g)
      if candidate.toList.head? = some '\x7b'
          && candidate.toList.getLast? = some '\x7d' then candidate
      else pyStrip text
    | none => pyStrip text

/-- Python `str.strip(',')`: drop commas from both ends. -/
def stripCommas (s : String) : String :=
  String.mk (((s.toList.dropWhile (fun c => c = ',')).reverse.dropWhile
    (fun c => c = ',')).reverse)

/-- Embedding of `extract_json(text)` of script 04 (lines 92-120):
strip, take the greedy fenced capture or the whole text, wrap in
braces when the candidate is not brace-delimited (after stripping
whitespace and commas), then validate by parsing; on success the
re-serialised JSON is returned, on failure `JSONDecodeError` is
raised, modelled as `Except.error`. -/
def extract_json04 (text : String) : Except Unit String :=
  let t := pyStrip text
  let cand0 :=
    match searchFenceGreedy t.toList with
    | some g => pyStrip (String.mk g)
    | none => t
  let candidate :=
    if cand0.toList.head? = some '\x7b' && cand0.toList.getLast? = some '\x7d' then
      cand0
    else ("\x7b") ++ stripCommas (pyStrip cand0) ++ ("\x7d")
  match jparse candidate with
  | some obj => .ok (jdumpF (4 * candidate.toList.length + 4) obj)
  | none => .error ()

example :
    extract_json ("\x60\x60\x60json\n\x7b\"is_covid\": \"covid\"\x7d\n\x60\x60\x60")
      = ("\x7b\"is_covid\": \"covid\"\x7d") := rfl

example : extract_json ("  \x7b\"a\": 1\x7d ") = ("\x7b\"a\": 1\x7d") := rfl

example : extract_json ("\x60\x60\x60\n\x7b\"a\": 1\x7d\n\x60\x60\x60")
    = ("\x7b\"a\": 1\x7d") := rfl

example : extract_json04 ("\x60\x60\x60json\n\x7b\"a\": 1\x7d\n\x60\x60\x60")
    = .ok ("\x7b\"a\": 1\x7d") := rfl

example : extract_json04 ("\"technology_class\": \"ai\", ")
    = .ok ("\x7b\"technology_class\": \"ai\"\x7d") := rfl

example : extract_json04 ("not json") = .error () := rfl

/-! ### Retry loops (scripts/01 lines 124-144, scripts/02 lines
138-170, scripts/04 lines 184-231)

Each loop is embedded as a recursion over the remaining attempts,
parametrised by an oracle giving the outcome of the external call on
each attempt number; the list of sleep durations (in seconds) is
accumulated and returned so the backoff schedule is observable. -/

def MAX_RETRIES : Nat := 3

def RETRY_DELAY : Nat := 2

def retry_limit : Nat := 3

/-- Retry loop of `process_row` (01_get_patents.py lines 124-144).
`call n` is the outcome of attempt `n` (request plus scrape plus
normalisation); an exception on a non-final attempt sleeps
`RETRY_DELAY * 2 ^ (attempt - 1)` seconds and retries; the final
attempt's exception produces the error record.  The fuel starts at
`MAX_RETRIES` and only bounds the recursion. -/
def process_row_go (call : Nat → Except String α) :
    Nat → Nat → List Nat → Except String α × List Nat
  | 0, _, sleeps => (.error "", sleeps)
  | fuel + 1, attempt, sleeps =>
    match call attempt with
    | .ok d => (.ok d, sleeps)
    | .error e =>
      if attempt < MAX_RETRIES then
        process_row_go call fuel (attempt + 1)
          (sleeps ++ [RETRY_DELAY * 2 ^ (attempt - 1)])
      else (.error e, sleeps)

/-- The retry loop of `process_row`, started at attempt 1. -/
def process_row_retry (call : Nat → Except String α) : Except String α × List Nat :=
  process_row_go call MAX_RETRIES 1 []

/-- Outcome of one `client.chat.completions.create` call: an
exception, a falsy/empty response object, or a message content
string. -/
inductive ApiOutcome where
  | exn (msg : String)
  | empty
  | content (s : String)

/-- Handling of a received content string in
`async_get_teaching_content` (02_get_edtech.py lines 148-164): clean
with `extract_json`, parse, and look up `teaching_content`.  Every
failure — parse error, a non-dict value (whose membership test or
indexing raises and is caught by the inner `except`), or a missing
key — returns `False`; this branch never retries. -/
def teachingContentStep (s : String) : JVal :=
  match jparse (extract_json s) with
  | none => .jbool false
  | some (.jobj kvs) =>
    match jlookup kvs ("teaching_content") with
    | some v => v
    | none => .jbool false
  | some _ => .jbool false

/-- Retry loop of `async_get_teaching_content` (02_get_edtech.py lines
139-170): only an exception from the API call itself retries (sleeping
`attempt` seconds); an empty response or any content returns
immediately. -/
def teaching_go (o : Nat → ApiOutcome) : Nat → Nat → List Nat → JVal × List Nat
  | 0, _, sleeps => (.jbool false, sleeps)
  | fuel + 1, attempt, sleeps =>
    match o attempt with
    | .exn _ =>
      if attempt = retry_limit then (.jbool false, sleeps)
      else teaching_go o fuel (attempt + 1) (sleeps ++ [attempt])
    | .empty => (.jbool false, sleeps)
    | .content s => (teachingContentStep s, sleeps)

/-- Embedding of `async_get_teaching_content` on an already-string
text: blank text returns `False` without any API call, otherwise the
retry loop runs from attempt 1. -/
def async_get_teaching_content (o : Nat → ApiOutcome) (text : String) :
    JVal × List Nat :=
  if pyStrip text = "" then (.jbool false, [])
  else teaching_go o retry_limit 1 []

/-- The classification dict returned by
`async_get_edtech_classification`. -/
structure Classification where
  technology_class : JVal
  reason : JVal

def error_result : Classification :=
  ⟨.jstr ("Error"), .jstr ("API call failed")⟩

def default_result : Classification :=
  ⟨.jstr ("Unknown"), .jstr ("No description provided")⟩

/-- Handling of a received content string in
`async_get_edtech_classification` (04_edtech_classidied.py lines
198-220): `extract_json` may raise (caught: retry), the re-parse may
raise (caught: retry), a non-dict raises `ValueError` (caught: retry);
a dict returns, with `Missing` defaults when expected keys are
absent.  `none` means the attempt falls through to the backoff. -/
def edtech_attempt_result (s : String) : Option Classification :=
  match extract_json04 s with
  | .error _ => none
  | .ok cleaned =>
    match jparse cleaned with
    | none => none
    | some (.jobj kvs) =>
      if ((jlookup kvs ("technology_class")).isSome
          && (jlookup kvs ("reason")).isSome) then
        some ⟨(jlookup kvs ("technology_class")).getD .jnull,
              (jlookup kvs ("reason")).getD .jnull⟩
      else
        some ⟨(jlookup kvs ("technology_class")).getD (.jstr ("Missing")),
              (jlookup kvs ("reason")).getD (.jstr ("Missing"))⟩
    | some _ => none

/-- Retry loop of `async_get_edtech_classification`
(04_edtech_classidied.py lines 185-231): the shutdown flag is checked
at the top of every attempt; exceptions, empty responses and malformed
content all fall through to the backoff sleep of `attempt * 2` seconds
and retry; after the final attempt `error_result` is returned. -/
def edtech_go (sh : Nat → Bool) (o : Nat → ApiOutcome) :
    Nat → Nat → List Nat → Classification × List Nat
  | 0, _, sleeps => (error_result, sleeps)
  | fuel + 1, attempt, sleeps =>
    if sh attempt then (error_result, sleeps)
    else
      let res : Option Classification :=
        match o attempt with
        | .exn _ => none
        | .empty => none
        | .content s => edtech_attempt_result s
      match res with
      | some r => (r, sleeps)
      | none =>
        if attempt < retry_limit then
          edtech_go sh o fuel (attempt + 1) (sleeps ++ [attempt * 2])
        else (error_result, sleeps)

/-- Embedding of `async_get_edtech_classification` on an
already-string text: blank text returns `default_result` without any
API call, otherwise the retry loop runs from attempt 1.  `sh n` is the
shutdown flag as observed at the start of attempt `n`. -/
def async_get_edtech_classification (sh : Nat → Bool) (o : Nat → ApiOutcome)
    (text : String) : Classification × List Nat :=
  if pyStrip text = "" then (default_result, [])
  else edtech_go sh o retry_limit 1 []

/-! ### HTML fetch with URL fallback (scripts/03 lines 55-87) -/

/-- Outcome of one `session.get` + `raise_for_status`: a parsed page,
an HTTP error with its status code, or some other exception. -/
inductive FetchResult (α : Type) where
  | ok (page : α)
  | httpError (code : Nat)
  | connError (msg : String)

/-- Embedding of `_convert_id_to_url_format`: remove hyphens, strip. -/
def convert_id_to_url_format (original_id : String) : String :=
  pyStrip (String.mk (original_id.toList.filter (fun c => c ≠ '-')))

def base_url_of (original_id : String) : String :=
  ("https://patents.google.com/patent/") ++ convert_id_to_url_format original_id

def en_url_of (original_id : String) : String :=
  base_url_of original_id ++ ("/en")

/-- Embedding of `PatentScraper._get_page_html` (03_get_description.py
lines 60-87).  The `/en` URL is fetched first.  A 404 is logged at
info level and any other `HTTPError` at warning level, and a
connection error at warning level — in all three cases the handler
only logs, so control falls through to the base-URL fetch.  Only when
that also fails is `None` returned. -/
def get_page_html {α : Type} (fetch : String → FetchResult α)
    (original_id : String) : Option α :=
  match fetch (en_url_of original_id) with
  | .ok p => some p
  | .httpError _ =>
    match fetch (base_url_of original_id) with
    | .ok p => some p
    | _ => none
  | .connError _ =>
    match fetch (base_url_of original_id) with
    | .ok p => some p
    | _ => none

/-! ### Per-record processing and shutdown (scripts/02 lines 175-258,
scripts/04 lines 236-307, scripts/05 lines 173-187) -/

/-- A record as seen by stage 05: its description and the `is_covid`
annotation added by the stage (`none` = key absent). -/
structure Rec05 where
  description : String
  is_covid : Option JVal := none

/-- Embedding of `process_patent` of 05_check_is_covid.py (lines
173-187).  The boolean result reports whether the API-backed
`async_get_covid_status` call was made, i.e. whether an annotate
operation was admitted.  When the shutdown flag is set the record is
returned untouched with no call. -/
def process_patent05 (shutdown : Bool) (covid : String → JVal) (r : Rec05) :
    Rec05 × Bool :=
  if shutdown then (r, false)
  else
    let d := pyStrip r.description
    if d ≠ "" then ({r with is_covid := some (covid d)}, true)
    else ({r with is_covid := some (.jstr ("non-covid"))}, false)

/-- A record as seen by stage 04: its description and the two
annotation fields the stage adds. -/
structure Rec04 where
  description : String
  technology_class : Option JVal := none
  reason : Option JVal := none

/-- Embedding of `process_patent` of 04_edtech_classidied.py (lines
236-261).  Under shutdown the record gets the `Shutdown` sentinel and
no classification call is made. -/
def process_patent04 (shutdown : Bool) (classify : String → Classification)
    (r : Rec04) : Rec04 × Bool :=
  if shutdown then
    ({r with technology_class := some (.jstr ("Shutdown")),
             reason := some (.jstr ("Shutdown requested"))}, false)
  else
    let d := pyStrip r.description
    if d ≠ "" then
      let c := classify d
      ({r with technology_class := some c.technology_class,
               reason := some c.reason}, true)
    else
      ({r with technology_class := some (.jstr ("No Description")),
               reason := some (.jstr ("No description provided"))}, false)

/-- Task-creation guard of 04_edtech_classidied.py lines 294-298: the
list comprehension building the task list filters on the shutdown flag
(constant while the synchronous comprehension runs). -/
def dispatch_tasks (shutdown : Bool) (records : List α) : List α :=
  records.filter (fun _ => !shutdown)

/-- A record as seen by stage 02: its abstract and the
`teaching_content` annotation (`none` = key absent; `some .jnull` =
Python `None` assigned for an empty abstract). -/
structure Rec02 where
  abstract_text : String
  teaching_content : Option JVal := none
  tag : Nat := 0

/-- Python `x is True` on a JSON value. -/
def isTrueJ : JVal → Bool
  | .jbool true => true
  | _ => false

/-- Python `record.get("teaching_content") is True` (02_get_edtech.py
line 251). -/
def isTrueTC : Option JVal → Bool
  | some v => isTrueJ v
  | none => false

/-- Embedding of `process_patent` of 02_get_edtech.py (lines 175-189):
under shutdown the record is returned untouched; a non-empty stripped
abstract is annotated with the API result `teachVal`, an empty one
with Python `None`. -/
def process_patent02 (shutdown : Bool) (teachVal : JVal) (r : Rec02) : Rec02 :=
  if shutdown then r
  else if pyStrip r.abstract_text ≠ "" then
    {r with teaching_content := some teachVal}
  else {r with teaching_content := some .jnull}

/-- The concurrent annotation pass of 02_get_edtech.py: record `i` is
processed with the shutdown flag value `sh i` observed when its task
ran and annotation result `teach i`. -/
def annotate02 (sh : Nat → Bool) (teach : Nat → JVal) :
    Nat → List Rec02 → List Rec02
  | _, [] => []
  | i, r :: rs => process_patent02 (sh i) (teach i) r :: annotate02 sh teach (i + 1) rs

/-- Embedding of `main` of 02_get_edtech.py (lines 229-258): filter to
records with a non-empty stripped abstract (line 229), annotate them
concurrently, and write exactly the records whose `teaching_content`
`is True` (line 251). -/
def stage02_main (sh : Nat → Bool) (teach : Nat → JVal) (input : List Rec02) :
    List Rec02 :=
  let records := input.filter (fun r => pyStrip r.abstract_text != "")
  (annotate02 sh teach 0 records).filter (fun r => isTrueTC r.teaching_content)

/-! ### Claims about the identity resolver -/

/-- C3 counterexample: a record whose `result link` field holds a
truthy non-string (the float `nan` pandas puts in a missing CSV cell)
makes the resolver raise `TypeError` inside `re.search`, so the
resolver is not total on malformed records. -/
theorem c3_resolver_raises_on_nan_link :
    get_csv_patent_id [(("result link"), PyVal.vnan)]
      = .error ("TypeError: expected string or bytes-like object") := rfl

/-- C3 amended: for every record whose `result link` value is a string
or falsy, the resolver returns without raising: the normalised
stringified `id` field if non-blank, else the normalised id extracted
from the URL, else the empty key.  (On a blank id and a truthy
non-string `result link` it raises instead, see the counterexample.)
The resolver is a pure function of the record, so it performs no
I/O. -/
theorem c3_resolver_total_on_string_links (row : Row) (u : PyVal) (pid : String)
    (hu : u = pyGet row ("result link") (.vstr ""))
    (hpid : pid = pyStrip (pyStr (pyOr (pyGet row ("id") (.vstr "")) (.vstr ""))))
    (hok : (∃ s, u = .vstr s) ∨ pyTruthy u = false) :
    ∃ k e, get_csv_patent_id row = .ok k ∧ extract_patent_id u = .ok e
      ∧ (pid ≠ "" → k = normalize_id pid)
      ∧ (pid = "" → e ≠ "" → k = normalize_id e)
      ∧ (pid = "" → e = "" → k = "") := by
  subst hu
  subst hpid
  have he : ∃ e, extract_patent_id (pyGet row ("result link") (.vstr "")) = .ok e := by
    rcases hok with ⟨s, hs⟩ | hf
    · rw [hs]
      by_cases h0 : pyTruthy (.vstr s) = false
      · exact ⟨"", by simp [extract_patent_id, h0]⟩
      · exact ⟨extract_patent_id_s s, by simp [extract_patent_id, h0]⟩
    · exact ⟨"", by simp [extract_patent_id, hf]⟩
  obtain ⟨e, he⟩ := he
  by_cases hp : pyStrip (pyStr (pyOr (pyGet row ("id") (.vstr "")) (.vstr ""))) = ""
  · refine ⟨if e ≠ "" then normalize_id e else "", e, ?_, he,
      fun hcon => absurd hp hcon, fun _ hne => by rw [if_pos hne],
      fun _ he0 => by rw [if_neg (by simp [he0])]⟩
    simp only [get_csv_patent_id]
    rw [if_neg (by simp [hp]), he]
  · refine ⟨normalize_id (pyStrip (pyStr (pyOr (pyGet row ("id") (.vstr "")) (.vstr "")))),
      e, ?_, he, fun _ => rfl, fun h _ => absurd h hp, fun h _ => absurd h hp⟩
    simp only [get_csv_patent_id]
    rw [if_pos hp]

/-- C3 witness: a record with only a URL resolves to the id embedded
in it, without raising. -/
theorem c3_resolver_total_on_string_links_witness :
    ∃ k e,
      get_csv_patent_id [(("result link"), .vstr ("https://x/patent/US9/a"))] = .ok k
      ∧ extract_patent_id (.vstr ("https://x/patent/US9/a")) = .ok e
      ∧ ("" ≠ "" → k = normalize_id "")
      ∧ ("" = "" → e ≠ "" → k = normalize_id e)
      ∧ ("" = "" → e = "" → k = "") := by
  have h := c3_resolver_total_on_string_links
    [(("result link"), .vstr ("https://x/patent/US9/a"))]
    (.vstr ("https://x/patent/US9/a")) "" rfl rfl
    (Or.inl ⟨("https://x/patent/US9/a"), rfl⟩)
  exact h

/-! ### Claims about retry and backoff -/

/-- C4: an Annotator whose underlying call fails on attempts 1 and 2
and succeeds on attempt 3 returns the success result with exactly two
sleeps of non-decreasing duration, following the stated schedules:
`RETRY_DELAY * 2 ^ (attempt - 1)` for the scraper's `process_row` and
`attempt * 2` seconds for the script-04 API classifier. -/
theorem c4_fail_fail_succeed {α : Type}
    (call : Nat → Except String α) (e1 e2 : String) (d : α)
    (h1 : call 1 = .error e1) (h2 : call 2 = .error e2) (h3 : call 3 = .ok d)
    (sh : Nat → Bool) (hsh : ∀ n, sh n = false)
    (o : Nat → ApiOutcome) (m1 m2 s : String) (r : Classification)
    (o1 : o 1 = .exn m1) (o2 : o 2 = .exn m2) (o3 : o 3 = .content s)
    (hres : edtech_attempt_result s = some r)
    (text : String) (htext : pyStrip text ≠ "") :
    process_row_retry call = (.ok d, [RETRY_DELAY * 2 ^ 0, RETRY_DELAY * 2 ^ 1])
    ∧ async_get_edtech_classification sh o text = (r, [1 * 2, 2 * 2])
    ∧ List.Chain' (fun a b => a ≤ b) [RETRY_DELAY * 2 ^ 0, RETRY_DELAY * 2 ^ 1]
    ∧ List.Chain' (fun a b => a ≤ b) [1 * 2, 2 * 2] := by
  refine ⟨?_, ?_, by simp [List.chain'_cons, RETRY_DELAY], by simp [List.chain'_cons]⟩
  · simp [process_row_retry, process_row_go, h1, h2, h3, MAX_RETRIES, RETRY_DELAY]
  · rw [async_get_edtech_classification, if_neg htext]
    simp [edtech_go, hsh, o1, o2, o3, hres, retry_limit]

/-- C4 witness: a concrete call oracle failing twice then succeeding,
and a concrete API oracle raising twice then delivering a parseable
classification. -/
theorem c4_fail_fail_succeed_witness :
    process_row_retry
        (fun n => if n ≤ 2 then .error ("boom") else .ok (37 : Nat))
      = (.ok 37, [RETRY_DELAY * 2 ^ 0, RETRY_DELAY * 2 ^ 1])
    ∧ async_get_edtech_classification (fun _ => false)
        (fun n => if n ≤ 2 then .exn ("boom")
          else .content ("\x7b\"technology_class\": \"ai\", \"reason\": \"r\"\x7d"))
        ("text")
      = (⟨.jstr ("ai"), .jstr ("r")⟩, [1 * 2, 2 * 2])
    ∧ List.Chain' (fun a b => a ≤ b) [RETRY_DELAY * 2 ^ 0, RETRY_DELAY * 2 ^ 1]
    ∧ List.Chain' (fun a b => a ≤ b) [1 * 2, 2 * 2] := by
  exact c4_fail_fail_succeed
    (fun n => if n ≤ 2 then .error ("boom") else .ok (37 : Nat)) ("boom") ("boom") 37
    rfl rfl rfl (fun _ => false) (fun _ => rfl)
    (fun n => if n ≤ 2 then .exn ("boom")
      else .content ("\x7b\"technology_class\": \"ai\", \"reason\": \"r\"\x7d"))
    ("boom") ("boom") ("\x7b\"technology_class\": \"ai\", \"reason\": \"r\"\x7d")
    ⟨.jstr ("ai"), .jstr ("r")⟩ rfl rfl rfl rfl ("text") (by decide)

/-! ### Claims about the HTML fetch fallback -/

/-- C5 counterexample: when the `/en` fetch fails with a *non*-404
HTTP error (here 500) and the base URL succeeds, `_get_page_html`
returns the base-URL page — the fallback *is* attempted and the record
is not aborted, contrary to the claim that only a not-found response
falls back. -/
theorem c5_non_404_still_falls_back :
    get_page_html
        (fun u => if u = en_url_of ("X1") then FetchResult.httpError 500
          else FetchResult.ok 7) ("X1")
      = some 7
    ∧ (some 7 ≠ (none : Option Nat)) := by
  refine ⟨?_, by simp⟩
  have hne : base_url_of ("X1") ≠ en_url_of ("X1") := by decide
  simp [get_page_html, hne]

/-- C5 amended: the `/en` variant is attempted first; on *any* failure
of the preferred variant — 404, any other HTTP error, or a connection
error (the handlers only differ in what they log) — the base URL is
attempted; `None` ("no data") is returned only when both fetches
fail. -/
theorem c5_en_first_then_base {α : Type} (fetch : String → FetchResult α)
    (original_id : String) :
    (∀ p, fetch (en_url_of original_id) = .ok p →
      get_page_html fetch original_id = some p)
    ∧ (∀ p, (∀ q, fetch (en_url_of original_id) ≠ .ok q) →
        fetch (base_url_of original_id) = .ok p →
        get_page_html fetch original_id = some p)
    ∧ ((∀ q, fetch (en_url_of original_id) ≠ .ok q) →
        (∀ q, fetch (base_url_of original_id) ≠ .ok q) →
        get_page_html fetch original_id = none) := by
  refine ⟨?_, ?_, ?_⟩
  · intro p hp
    simp [get_page_html, hp]
  · intro p hen hbase
    cases hfe : fetch (en_url_of original_id) with
    | ok q => exact absurd hfe (hen q)
    | httpError code => simp [get_page_html, hfe, hbase]
    | connError m => simp [get_page_html, hfe, hbase]
  · intro hen hbase
    cases hfe : fetch (en_url_of original_id) with
    | ok q => exact absurd hfe (hen q)
    | httpError code =>
      cases hfb : fetch (base_url_of original_id) with
      | ok q => exact absurd hfb (hbase q)
      | httpError c2 => simp [get_page_html, hfe, hfb]
      | connError m => simp [get_page_html, hfe, hfb]
    | connError m =>
      cases hfb : fetch (base_url_of original_id) with
      | ok q => exact absurd hfb (hbase q)
      | httpError c2 => simp [get_page_html, hfe, hfb]
      | connError m2 => simp [get_page_html, hfe, hfb]

/-- C5 amended witness: with the `/en` fetch failing on a connection
error and the base fetch succeeding, the base page is returned. -/
theorem c5_en_first_then_base_witness :
    (∀ p, (fun u => if u = en_url_of ("X1") then FetchResult.connError ("t/o")
        else FetchResult.ok 5) (en_url_of ("X1")) = .ok p →
      get_page_html (fun u => if u = en_url_of ("X1") then FetchResult.connError ("t/o")
        else FetchResult.ok 5) ("X1") = some p)
    ∧ (∀ p, (∀ q, (fun u => if u = en_url_of ("X1") then FetchResult.connError ("t/o")
          else FetchResult.ok 5) (en_url_of ("X1")) ≠ .ok q) →
        (fun u => if u = en_url_of ("X1") then FetchResult.connError ("t/o")
          else FetchResult.ok 5) (base_url_of ("X1")) = .ok p →
        get_page_html (fun u => if u = en_url_of ("X1") then FetchResult.connError ("t/o")
          else FetchResult.ok 5) ("X1") = some p)
    ∧ ((∀ q, (fun u => if u = en_url_of ("X1") then FetchResult.connError ("t/o")
          else FetchResult.ok 5) (en_url_of ("X1")) ≠ .ok q) →
        (∀ q, (fun u => if u = en_url_of ("X1") then FetchResult.connError ("t/o")
          else FetchResult.ok 5) (base_url_of ("X1")) ≠ .ok q) →
        get_page_html (fun u => if u = en_url_of ("X1") then FetchResult.connError ("t/o")
          else FetchResult.ok 5) ("X1") = none) :=
  c5_en_first_then_base
    (fun u => if u = en_url_of ("X1") then FetchResult.connError ("t/o")
      else FetchResult.ok 5) ("X1")

/-! ### Claims about malformed-LLM-output handling -/

/-- C6 counterexample: in the script-02 teaching-content Annotator,
malformed LLM output on attempt 1 is *not* retried: the call returns
the default `False` at once with zero sleeps, even though the oracle
would deliver perfectly parseable output on attempts 2 and 3 (second
conjunct). -/
theorem c6_script02_no_retry_on_malformed :
    async_get_teaching_content
        (fun n => if n = 1 then .content ("not json")
          else .content ("\x7b\"teaching_content\": true\x7d"))
        ("abstract")
      = (.jbool false, [])
    ∧ teachingContentStep ("\x7b\"teaching_content\": true\x7d") = .jbool true :=
  ⟨rfl, rfl⟩

/-- C6 amended: in the script-04 classifier, malformed LLM output on
an attempt is a transient failure — retried with backoff up to the
attempt bound and only then downgraded to the returned (never thrown)
`error_result` default; in the script-02 teaching-content Annotator,
malformed output is *not* retried: the default `False` is returned
immediately with no sleep (only exceptions from the API call itself
are retried there). -/
theorem c6_malformed_retry_04_immediate_default_02
    (sh : Nat → Bool) (hsh : ∀ n, sh n = false)
    (o : Nat → ApiOutcome) (s1 s2 s3 : String)
    (o1 : o 1 = .content s1) (o2 : o 2 = .content s2) (o3 : o 3 = .content s3)
    (b1 : edtech_attempt_result s1 = none)
    (b2 : edtech_attempt_result s2 = none)
    (b3 : edtech_attempt_result s3 = none)
    (text : String) (htext : pyStrip text ≠ "")
    (o' : Nat → ApiOutcome) (s : String)
    (o'1 : o' 1 = .content s)
    (hbad : jparse (extract_json s) = none)
    (text' : String) (htext' : pyStrip text' ≠ "") :
    async_get_edtech_classification sh o text = (error_result, [1 * 2, 2 * 2])
    ∧ async_get_teaching_content o' text' = (.jbool false, []) := by
  constructor
  · rw [async_get_edtech_classification, if_neg htext]
    simp [edtech_go, hsh, o1, o2, o3, b1, b2, b3, retry_limit]
  · rw [async_get_teaching_content, if_neg htext']
    simp [teaching_go, o'1, teachingContentStep, hbad, retry_limit]

/-- C6 amended witness: concrete oracles delivering malformed content. -/
theorem c6_malformed_retry_04_immediate_default_02_witness :
    async_get_edtech_classification (fun _ => false) (fun _ => .content ("not json"))
        ("text")
      = (error_result, [1 * 2, 2 * 2])
    ∧ async_get_teaching_content (fun _ => .content ("not json")) ("text")
      = (.jbool false, []) := by
  exact c6_malformed_retry_04_immediate_default_02
    (fun _ => false) (fun _ => rfl)
    (fun _ => .content ("not json")) ("not json") ("not json") ("not json")
    rfl rfl rfl rfl rfl rfl ("text") (by decide)
    (fun _ => .content ("not json")) ("not json") rfl rfl ("text") (by decide)

/-! ### Claims about shutdown and output filtering -/

/-- C7: once the shutdown flag is set, the Orchestrator admits no new
annotate operations — the task-creation guard of script 04 dispatches
nothing, and the per-record checks of scripts 05 and 04 return without
invoking the API (the boolean component reports whether the annotate
call was made; script 05 additionally leaves the record untouched) —
and every record present in a parseable chunk before an `append` flush
is still present in some parseable chunk afterwards. -/
theorem c7_shutdown_admits_nothing {α β : Type}
    (records : List α) (covid : String → JVal) (r5 : Rec05)
    (classify : String → Classification) (r4 : Rec04)
    (c : Nat) (hc : 0 < c)
    (store : List (Nat × Option (List β))) (xs : List β) :
    dispatch_tasks true records = []
    ∧ process_patent05 true covid r5 = (r5, false)
    ∧ (process_patent04 true classify r4).2 = false
    ∧ (∀ x i l, (i, some l) ∈ store → x ∈ l →
        ∃ j l2, (j, some l2) ∈ append_patents xs store c ∧ x ∈ l2) := by
  refine ⟨?_, rfl, rfl, ?_⟩
  · simp [dispatch_tasks]
  · intro x i l hmem hx
    have h1 : x ∈ storeEntries store := (mem_storeEntries_iff store x).2 ⟨i, l, hmem, hx⟩
    have h2 : x ∈ storeEntries (append_patents xs store c) := by
      rw [storeEntries_append_patents c hc]
      exact List.mem_append.2 (Or.inl h1)
    exact (mem_storeEntries_iff _ x).1 h2

/-- C7 witness: concrete records, store and flush. -/
theorem c7_shutdown_admits_nothing_witness :
    dispatch_tasks true [1, 2, 3]
      = ([] : List Nat)
    ∧ process_patent05 true (fun _ => .jstr ("covid")) ⟨("d"), none⟩
      = (⟨("d"), none⟩, false)
    ∧ (process_patent04 true (fun _ => error_result) ⟨("d"), none, none⟩).2 = false
    ∧ (∀ x i l, (i, some l) ∈ [(0, some [5]), (1, none)] → x ∈ l →
        ∃ j l2, (j, some l2) ∈ append_patents [9] [(0, some [5]), (1, none)] 2
          ∧ x ∈ l2) :=
  c7_shutdown_admits_nothing [1, 2, 3] (fun _ => .jstr ("covid")) ⟨("d"), none⟩
    (fun _ => error_result) ⟨("d"), none, none⟩ 2 (by decide)
    [(0, some [5]), (1, none)] [9]

/-- Helper: `isTrueJ v` holds exactly on the boolean `true`. -/
theorem isTrueJ_iff (v : JVal) : isTrueJ v = true ↔ v = .jbool true := by
  cases v with
  | jbool b => cases b <;> simp [isTrueJ]
  | jnull => simp [isTrueJ]
  | jnum n => simp [isTrueJ]
  | jstr s => simp [isTrueJ]
  | jarr xs => simp [isTrueJ]
  | jobj kvs => simp [isTrueJ]

/-- Helper for C10: the annotate-then-filter pass over fresh records
with non-empty abstracts keeps exactly the records whose task was not
shut down and whose annotation came back as the boolean `true`. -/
theorem annotate02_filter (sh : Nat → Bool) (teach : Nat → JVal) :
    ∀ (rs : List Rec02) (n : Nat),
      (∀ r ∈ rs, r.teaching_content = none ∧ pyStrip r.abstract_text ≠ "") →
      (annotate02 sh teach n rs).filter (fun r => isTrueTC r.teaching_content)
        = ((List.enumFrom n rs).filter
            (fun p => !sh p.1 && isTrueJ (teach p.1))).map
            (fun p => {p.2 with teaching_content := some (.jbool true)}) := by
  intro rs
  induction rs with
  | nil => intro n h; rfl
  | cons r rs ih =>
    intro n h
    have hr := h r (List.mem_cons_self r rs)
    have hrs : ∀ x ∈ rs, x.teaching_content = none ∧ pyStrip x.abstract_text ≠ "" :=
      fun x hm => h x (List.mem_cons_of_mem _ hm)
    simp only [annotate02, List.enumFrom, List.filter_cons]
    cases hsh : sh n with
    | true =>
      have hproc : process_patent02 true (teach n) r = r := rfl
      rw [hproc]
      rw [if_neg (by simp [hr.1, isTrueTC]), if_neg (by simp)]
      exact ih (n + 1) hrs
    | false =>
      have hproc : process_patent02 false (teach n) r
          = {r with teaching_content := some (teach n)} := by
        simp only [process_patent02, Bool.false_eq_true, if_false, if_pos hr.2]
      rw [hproc]
      cases hv : isTrueJ (teach n) with
      | true =>
        have hteq : teach n = .jbool true := (isTrueJ_iff _).1 hv
        rw [if_pos (by simp [isTrueTC, hv]), if_pos (by simp [hv])]
        rw [ih (n + 1) hrs, hteq]
        simp only [List.map_cons]
      | false =>
        rw [if_neg (by simp [isTrueTC, hv]), if_neg (by simp [hv])]
        exact ih (n + 1) hrs

/-- C10: the education-relevance stage writes exactly the records
whose `teaching_content` annotation is the boolean `True`: records
annotated `False` (or any non-`True` value), records with an empty
stripped `abstract_text` (dropped by the pre-filter and, had they
reached annotation, annotated `None`), and records whose task saw the
shutdown flag (left unannotated) are all excluded. -/
theorem c10_stage02_writes_exactly_true (sh : Nat → Bool) (teach : Nat → JVal)
    (input : List Rec02) (hfresh : ∀ r ∈ input, r.teaching_content = none) :
    stage02_main sh teach input
      = ((List.enumFrom 0 (input.filter
            (fun r => pyStrip r.abstract_text != ""))).filter
          (fun p => !sh p.1 && isTrueJ (teach p.1))).map
          (fun p => {p.2 with teaching_content := some (.jbool true)}) := by
  unfold stage02_main
  apply annotate02_filter
  intro r hm
  refine ⟨hfresh r (List.mem_of_mem_filter hm), ?_⟩
  have hb := List.of_mem_filter hm
  simpa using hb

/-- C10 witness: four records — annotated `True`, annotated `False`,
empty abstract, and shut down — of which only the first survives to
the output. -/
theorem c10_stage02_writes_exactly_true_witness :
    stage02_main (fun i => decide (i = 2))
        (fun i => if i = 0 then .jbool true else .jbool false)
        [Rec02.mk ("a") none 0, Rec02.mk ("b") none 1, Rec02.mk ("") none 2,
          Rec02.mk ("d") none 3]
      = ((List.enumFrom 0
            ([Rec02.mk ("a") none 0, Rec02.mk ("b") none 1, Rec02.mk ("") none 2,
              Rec02.mk ("d") none 3].filter
              (fun r => pyStrip r.abstract_text != ""))).filter
          (fun p => !(decide (p.1 = 2))
            && isTrueJ (if p.1 = 0 then .jbool true else .jbool false))).map
          (fun p => {p.2 with teaching_content := some (.jbool true)}) := by
  refine c10_stage02_writes_exactly_true _ _ _ ?_
  intro r hr
  fin_cases hr <;> rfl

/-! ### Claims about fenced-markdown extraction -/

/-- Wrap a payload in the fenced markdown formatting of the spec's
example: three backticks, `json`, newline, payload, newline, closing
fence. -/
def wrapFence (s : String) : String :=
  ("\x60\x60\x60json\n") ++ s ++ ("\n\x60\x60\x60")

/-- C8 counterexample: the JSON-object payload whose string value
contains a backtick fence.  Unwrapped it is returned whole and parses;
wrapped, the lazy regex stops at the closing brace inside the string
value, so the extraction is the truncated `\x7b"a": "\x7d`, which does
not parse at all — the wrapped and unwrapped payloads are *not* parsed
identically. -/
theorem c8_fenced_payload_counterexample :
    jparse ("\x7b\"a\": \"\x7d\x60\x60\x60\x7b\"\x7d")
      = some (.jobj [(("a"), .jstr ("\x7d\x60\x60\x60\x7b"))])
    ∧ extract_json ("\x7b\"a\": \"\x7d\x60\x60\x60\x7b\"\x7d")
      = ("\x7b\"a\": \"\x7d\x60\x60\x60\x7b\"\x7d")
    ∧ extract_json (wrapFence ("\x7b\"a\": \"\x7d\x60\x60\x60\x7b\"\x7d"))
      = ("\x7b\"a\": \"\x7d")
    ∧ jparse (extract_json (wrapFence ("\x7b\"a\": \"\x7d\x60\x60\x60\x7b\"\x7d")))
      = none :=
  ⟨rfl, rfl, rfl, rfl⟩

/-! Infrastructure for the amended C8: list-level facts about
whitespace stripping and fence scanning. -/

theorem toList_append (a b : String) : (a ++ b).toList = a.toList ++ b.toList := by
  cases a
  cases b
  rfl

theorem mk_toList (s : String) : String.mk s.toList = s := rfl

/-- Dropping whitespace from an all-whitespace prefix followed by a
non-whitespace character exposes that character. -/
theorem dropWhile_ws_append (a : List Char) (c : Char) (t : List Char)
    (ha : ∀ x ∈ a, isPyWs x = true) (hc : isPyWs c = false) :
    (a ++ c :: t).dropWhile isPyWs = c :: t := by
  induction a with
  | nil => simp [List.dropWhile_cons, hc]
  | cons x a ih =>
    have hx := ha x (List.mem_cons_self x a)
    simp only [List.cons_append, List.dropWhile_cons, hx, if_true]
    exact ih (fun y hy => ha y (List.mem_cons_of_mem _ hy))

/-- When the head survives `dropWhile`, appending distributes. -/
theorem dropWhile_append_of_ne_nil (p : Char → Bool) (a b : List Char)
    (h : a.dropWhile p ≠ []) :
    (a ++ b).dropWhile p = a.dropWhile p ++ b := by
  induction a with
  | nil => exact absurd rfl h
  | cons x a ih =>
    by_cases hx : p x = true
    · simp only [List.dropWhile_cons, hx, if_true] at h
      simp only [List.cons_append, List.dropWhile_cons, hx, if_true]
      exact ih h
    · simp only [List.cons_append, List.dropWhile_cons, hx]
      simp [hx]

/-- Decompose a list into leading whitespace, its stripped core, and
trailing whitespace. -/
theorem stripList_decomp (l : List Char) :
    ∃ w1 w2, l = w1 ++ stripList l ++ w2
      ∧ (∀ c ∈ w1, isPyWs c = true) ∧ (∀ c ∈ w2, isPyWs c = true) := by
  refine ⟨l.takeWhile isPyWs, ((l.dropWhile isPyWs).reverse.takeWhile isPyWs).reverse,
    ?_, ?_, ?_⟩
  · have key : l.dropWhile isPyWs
        = stripList l ++ ((l.dropWhile isPyWs).reverse.takeWhile isPyWs).reverse := by
      calc l.dropWhile isPyWs
          = (l.dropWhile isPyWs).reverse.reverse := (List.reverse_reverse _).symm
        _ = ((l.dropWhile isPyWs).reverse.takeWhile isPyWs
              ++ (l.dropWhile isPyWs).reverse.dropWhile isPyWs).reverse := by
            rw [List.takeWhile_append_dropWhile]
        _ = ((l.dropWhile isPyWs).reverse.dropWhile isPyWs).reverse
              ++ ((l.dropWhile isPyWs).reverse.takeWhile isPyWs).reverse :=
            List.reverse_append _ _
        _ = stripList l
              ++ ((l.dropWhile isPyWs).reverse.takeWhile isPyWs).reverse := rfl
    conv_lhs => rw [← List.takeWhile_append_dropWhile (p := isPyWs) (l := l), key]
    rw [List.append_assoc]
  · intro c hc
    exact List.mem_takeWhile_imp hc
  · intro c hc
    rw [List.mem_reverse] at hc
    exact List.mem_takeWhile_imp hc

/-- A list whose first and last characters are not whitespace strips
to itself. -/
theorem stripList_eq_self (l : List Char) (c1 c2 : Char)
    (h1 : l.head? = some c1) (hc1 : isPyWs c1 = false)
    (h2 : l.getLast? = some c2) (hc2 : isPyWs c2 = false) :
    stripList l = l := by
  have hd : l.dropWhile isPyWs = l := by
    match l, h1 with
    | c1 :: t, rfl => simp [List.dropWhile_cons, hc1]
  have hrev : l.reverse.dropWhile isPyWs = l.reverse := by
    rcases List.eq_nil_or_concat l with hnil | ⟨t, b, hcat⟩
    · subst hnil; rfl
    · rw [List.concat_eq_append] at hcat
      subst hcat
      have hb : b = c2 := by
        rw [List.getLast?_concat] at h2
        exact Option.some.inj h2
      subst hb
      rw [List.reverse_append]
      simp [List.dropWhile_cons, hc2]
  rw [stripList, hd, hrev, List.reverse_reverse]

/-- A list with distinct given head and last characters splits as
`head :: middle ++ [last]`. -/
theorem head_last_decomp (l : List Char) (a b : Char) (hab : a ≠ b)
    (h1 : l.head? = some a) (h2 : l.getLast? = some b) :
    ∃ mid, l = a :: (mid ++ [b]) := by
  match l, h1 with
  | a :: t, rfl =>
    rcases List.eq_nil_or_concat t with hnil | ⟨t', y, hcat⟩
    · subst hnil
      simp only [List.getLast?_singleton, Option.some.injEq] at h2
      exact absurd h2 hab
    · rw [List.concat_eq_append] at hcat
      subst hcat
      have hy : y = b := by
        have hx : (a :: (t' ++ [y])).getLast? = some y := by
          rw [show a :: (t' ++ [y]) = (a :: t') ++ [y] by simp, List.getLast?_concat]
        rw [hx] at h2
        exact Option.some.inj h2
      subst hy
      exact ⟨t', rfl⟩

theorem isFence_append (l y : List Char) (h : isFence l = true) :
    isFence (l ++ y) = true := by
  have hp : l.take 3 = [btick, btick, btick] := by simpa [isFence] using h
  have hlen : 3 ≤ l.length := by
    by_contra hlt
    push_neg at hlt
    have htl : (l.take 3).length = l.length := by
      simp only [List.length_take]
      omega
    rw [hp] at htl
    simp only [List.length_cons, List.length_nil] at htl
    omega
  simp only [isFence]
  rw [List.take_append_of_le_length hlen, hp]
  simp

theorem hasFence_append_right (a b : List Char) (h : hasFence b = true) :
    hasFence (a ++ b) = true := by
  induction a with
  | nil => simpa using h
  | cons x a ih =>
    simp only [List.cons_append, hasFence, Bool.or_eq_true]
    exact Or.inr ih

theorem hasFence_append_left (a y : List Char) (h : hasFence a = true) :
    hasFence (a ++ y) = true := by
  induction a with
  | nil => simp [hasFence] at h
  | cons x a ih =>
    simp only [hasFence, Bool.or_eq_true] at h
    rcases h with h | h
    · simp only [List.cons_append, hasFence, Bool.or_eq_true]
      exact Or.inl (by simpa using isFence_append (x :: a) y h)
    · simp only [List.cons_append, hasFence, Bool.or_eq_true]
      exact Or.inr (ih h)

/-- A fence inside an infix means a fence in the whole list. -/
theorem hasFence_infix (x m y : List Char) (h : hasFence m = true) :
    hasFence (x ++ m ++ y) = true := by
  rw [List.append_assoc]
  exact hasFence_append_right x (m ++ y) (hasFence_append_left m y h)

/-- The `dropWhile` residue is a suffix, so a fence in it is a fence
in the original. -/
theorem hasFence_of_dropWhile (u : List Char)
    (h : hasFence (u.dropWhile isPyWs) = true) : hasFence u = true := by
  have h2 := hasFence_append_right (u.takeWhile isPyWs) (u.dropWhile isPyWs) h
  rwa [List.takeWhile_append_dropWhile] at h2

/-- No closing `\s*` + fence can match right after a closing brace
that is preceded by fence-free text: the next non-whitespace character
is either inside that text (no fence there) or the brace itself. -/
theorem closeFence_false_of (u rest : List Char) (hu : hasFence u = false) :
    closeFence (u ++ '\x7d' :: rest) = false := by
  by_cases hnil : u.dropWhile isPyWs = []
  · have hall : ∀ x ∈ u, isPyWs x = true := by
      intro x hx
      by_contra hws
      have hne : u.dropWhile isPyWs ≠ [] := by
        intro hcon
        have := List.dropWhile_eq_nil_iff.1 hcon x hx
        simp_all
      exact hne hnil
    rw [closeFence, dropWhile_ws_append u _ rest hall (by decide)]
    simp only [isFence, List.take]
    simp only [decide_eq_false_iff_not]
    intro hcon
    have : ('\x7d' : Char) = btick := by
      have := congrArg (fun l => l.head?) hcon
      simpa using this
    exact absurd this (by decide)
  · rw [closeFence, dropWhile_append_of_ne_nil _ _ _ hnil]
    obtain ⟨c1, r1, hdw⟩ : ∃ c1 r1, u.dropWhile isPyWs = c1 :: r1 := by
      match hdd : u.dropWhile isPyWs with
      | [] => exact absurd hdd hnil
      | c :: r => exact ⟨c, r, rfl⟩
    rw [hdw]
    have hfno : hasFence (c1 :: r1) = false := by
      by_contra hcon
      simp only [Bool.not_eq_false] at hcon
      have : hasFence (u.dropWhile isPyWs) = true := by rw [hdw]; exact hcon
      rw [hasFence_of_dropWhile u this] at hu
      cases hu
    have hfno1 : isFence (c1 :: r1) = false := by
      rw [hasFence] at hfno
      simp only [Bool.or_eq_false_iff] at hfno
      exact hfno.1
    match r1 with
    | [] =>
      simp only [List.cons_append, List.nil_append, isFence, List.take]
      simp only [decide_eq_false_iff_not]
      intro hcon
      have : ('\x7d' : Char) = btick := by
        have := congrArg (fun l => l.get? 1) hcon
        simpa using this
      exact absurd this (by decide)
    | [d] =>
      simp only [List.cons_append, List.nil_append, isFence, List.take]
      simp only [decide_eq_false_iff_not]
      intro hcon
      have : ('\x7d' : Char) = btick := by
        have := congrArg (fun l => l.get? 2) hcon
        simpa using this
      exact absurd this (by decide)
    | d :: e :: r =>
      simp only [List.cons_append, isFence, List.take]
      simp only [isFence, List.take] at hfno1
      exact hfno1

/-- The lazy capture body over fence-free text ends exactly at the
closing brace whose tail matches. -/
theorem bodyLazy_concat (inner rest : List Char)
    (hf : hasFence inner = false) (hc : closeFence rest = true) :
    bodyLazy (inner ++ '\x7d' :: rest) = some inner := by
  induction inner with
  | nil =>
    simp only [List.nil_append, bodyLazy, hc]
    simp
  | cons c inner ih =>
    have htail : hasFence inner = false := by
      rw [hasFence] at hf
      simp only [Bool.or_eq_false_iff] at hf
      exact hf.2
    have hclose : closeFence (inner ++ '\x7d' :: rest) = false :=
      closeFence_false_of inner rest htail
    have hcond : (c = '\x7d' && closeFence (inner ++ '\x7d' :: rest)) = false := by
      rw [hclose]
      simp
    show bodyLazy (c :: (inner ++ '\x7d' :: rest)) = some (c :: inner)
    simp only [bodyLazy, hcond, Bool.false_eq_true, if_false, ih htail]

/-- The greedy body finds nothing in brace-free text. -/
theorem bodyGreedy_none (l : List Char) (h : '\x7d' ∉ l) : bodyGreedy l = none := by
  induction l with
  | nil => rfl
  | cons c t ih =>
    have hc : ¬(c = '\x7d') := fun hcc => h (hcc ▸ List.mem_cons_self c t)
    have ht : '\x7d' ∉ t := fun hm => h (List.mem_cons_of_mem _ hm)
    simp only [bodyGreedy, ih ht]
    simp [hc]

/-- The greedy capture body ends at the final closing brace when no
later brace exists. -/
theorem bodyGreedy_concat (inner rest : List Char)
    (hrest : '\x7d' ∉ rest) (hc : closeFence rest = true) :
    bodyGreedy (inner ++ '\x7d' :: rest) = some inner := by
  induction inner with
  | nil =>
    simp only [List.nil_append, bodyGreedy, bodyGreedy_none rest hrest, hc]
    simp
  | cons c inner ih =>
    show bodyGreedy (c :: (inner ++ '\x7d' :: rest)) = some (c :: inner)
    simp only [bodyGreedy, ih]

/-- Without any fence in the input, neither fenced pattern matches
anywhere. -/
theorem search_none_of_no_fence (l : List Char) (h : hasFence l = false) :
    searchFenceLazy l = none ∧ searchFenceGreedy l = none
      ∧ searchFenceAny l = none := by
  induction l with
  | nil => exact ⟨rfl, rfl, rfl⟩
  | cons c rest ih =>
    rw [hasFence] at h
    simp only [Bool.or_eq_false_iff] at h
    have hm : ∀ body, matchFenceAt body (c :: rest) = none := by
      intro body
      simp [matchFenceAt, h.1]
    have ihr := ih h.2
    refine ⟨?_, ?_, ?_⟩
    · simp only [searchFenceLazy, hm]
      exact ihr.1
    · simp only [searchFenceGreedy, hm]
      exact ihr.2.1
    · simp only [searchFenceAny, h.1]
      simpa using ihr.2.2

/-- Both fenced patterns, applied to a wrapped fence-free
brace-delimited payload, capture exactly the stripped payload. -/
theorem searchFence_wrapped (s : String) (inner w1 w2 : List Char)
    (hdecomp : s.toList = w1 ++ ('\x7b' :: (inner ++ ['\x7d'])) ++ w2)
    (hw1 : ∀ c ∈ w1, isPyWs c = true) (hw2 : ∀ c ∈ w2, isPyWs c = true)
    (hfi : hasFence inner = false) :
    searchFenceLazy (wrapFence s).toList = some ('\x7b' :: (inner ++ ['\x7d']))
    ∧ searchFenceGreedy (wrapFence s).toList
        = some ('\x7b' :: (inner ++ ['\x7d'])) := by
  have hw : (wrapFence s).toList
      = btick :: btick :: btick :: 'j' :: 's' :: 'o' :: 'n' :: '\n'
          :: (s.toList ++ '\n' :: btick :: btick :: btick :: []) := by
    rw [wrapFence, toList_append, toList_append, List.append_assoc]
    rfl
  have hArg : ('\n' :: (s.toList ++ '\n' :: btick :: btick :: btick :: [])).dropWhile
        isPyWs
      = '\x7b' :: (inner ++ ('\x7d' :: (w2 ++ '\n' :: btick :: btick :: btick :: []))) := by
    rw [hdecomp]
    have hre : '\n' :: ((w1 ++ ('\x7b' :: (inner ++ ['\x7d'])) ++ w2)
          ++ '\n' :: btick :: btick :: btick :: [])
        = ('\n' :: w1)
            ++ '\x7b' :: (inner
              ++ ('\x7d' :: (w2 ++ '\n' :: btick :: btick :: btick :: []))) := by
      simp [List.append_assoc]
    rw [hre]
    refine dropWhile_ws_append ('\n' :: w1) _ _ ?_ (by decide)
    intro c hc
    rcases List.mem_cons.1 hc with h | h
    · subst h; decide
    · exact hw1 c h
  have hclose : closeFence (w2 ++ '\n' :: btick :: btick :: btick :: []) = true := by
    have hre : w2 ++ '\n' :: btick :: btick :: btick :: []
        = (w2 ++ ['\n']) ++ btick :: btick :: btick :: [] := by
      simp
    rw [closeFence, hre,
      dropWhile_ws_append (w2 ++ ['\n']) btick [btick, btick]
        (by
          intro c hc
          rcases List.mem_append.1 hc with h | h
          · exact hw2 c h
          · simp only [List.mem_singleton] at h
            subst h
            decide)
        (by decide)]
    decide
  have hbodyL : bodyLazy (inner
        ++ '\x7d' :: (w2 ++ '\n' :: btick :: btick :: btick :: [])) = some inner :=
    bodyLazy_concat _ _ hfi hclose
  have hbodyG : bodyGreedy (inner
        ++ '\x7d' :: (w2 ++ '\n' :: btick :: btick :: btick :: [])) = some inner := by
    refine bodyGreedy_concat _ _ ?_ hclose
    intro hmem
    rcases List.mem_append.1 hmem with h | h
    · exact absurd (hw2 _ h) (by decide)
    · simp only [List.mem_cons, List.mem_singleton] at h
      rcases h with h | h | h | h
      · exact absurd h (by decide)
      · exact absurd h (by decide)
      · exact absurd h (by decide)
      · rcases h with h | h
        · exact absurd h (by decide)
        · simp at h
  have hbrL : braceLazy ('\n' :: (s.toList ++ '\n' :: btick :: btick :: btick :: []))
      = some ('\x7b' :: (inner ++ ['\x7d'])) := by
    simp only [braceLazy, hArg, hbodyL]
  have hbrG : braceGreedy ('\n' :: (s.toList ++ '\n' :: btick :: btick :: btick :: []))
      = some ('\x7b' :: (inner ++ ['\x7d'])) := by
    simp only [braceGreedy, hArg, hbodyG]
  constructor
  · rw [hw]
    show (match matchFenceAt braceLazy (btick :: btick :: btick :: 'j' :: 's' :: 'o'
        :: 'n' :: '\n' :: (s.toList ++ '\n' :: btick :: btick :: btick :: [])) with
      | some g => some g
      | none => searchFenceLazy ('j' :: 's' :: 'o' :: 'n' :: '\n'
          :: (s.toList ++ '\n' :: btick :: btick :: btick :: []))) = _
    have h1 : matchFenceAt braceLazy (btick :: btick :: btick :: 'j' :: 's' :: 'o'
        :: 'n' :: '\n' :: (s.toList ++ '\n' :: btick :: btick :: btick :: []))
        = (match braceLazy ('\n' :: (s.toList ++ '\n' :: btick :: btick :: btick :: []))
            with
          | some g => some g
          | none => braceLazy ('j' :: 's' :: 'o' :: 'n' :: '\n'
              :: (s.toList ++ '\n' :: btick :: btick :: btick :: []))) := rfl
    rw [h1, hbrL]
  · rw [hw]
    show (match matchFenceAt braceGreedy (btick :: btick :: btick :: 'j' :: 's' :: 'o'
        :: 'n' :: '\n' :: (s.toList ++ '\n' :: btick :: btick :: btick :: [])) with
      | some g => some g
      | none => searchFenceGreedy ('j' :: 's' :: 'o' :: 'n' :: '\n'
          :: (s.toList ++ '\n' :: btick :: btick :: btick :: []))) = _
    have h1 : matchFenceAt braceGreedy (btick :: btick :: btick :: 'j' :: 's' :: 'o'
        :: 'n' :: '\n' :: (s.toList ++ '\n' :: btick :: btick :: btick :: []))
        = (match braceGreedy ('\n' :: (s.toList ++ '\n' :: btick :: btick :: btick :: []))
            with
          | some g => some g
          | none => braceGreedy ('j' :: 's' :: 'o' :: 'n' :: '\n'
              :: (s.toList ++ '\n' :: btick :: btick :: btick :: []))) := rfl
    rw [h1, hbrG]

/-- C8 amended: for every JSON-object payload that contains no
three-backtick fence of its own (its stripped form starts with a brace
and ends with a brace, as every serialised JSON object does), the
scripts-02/05 extraction returns the stripped payload itself whether
or not the payload is wrapped in fenced markdown, and the script-04
extraction returns identical results on the wrapped and unwrapped
payload — so both parse to the same JSON object.  (A payload
containing a fence inside a string value breaks this, see the
counterexample.) -/
theorem c8_fence_free_extracts_identically (s : String) (kvs : List (String × JVal))
    (hjson : jparse (pyStrip s) = some (.jobj kvs))
    (hfence : hasFence s.toList = false)
    (hhead : (stripList s.toList).head? = some '\x7b')
    (hlast : (stripList s.toList).getLast? = some '\x7d') :
    extract_json (wrapFence s) = pyStrip s
    ∧ extract_json s = pyStrip s
    ∧ extract_json04 (wrapFence s) = extract_json04 s := by
  obtain ⟨w1, w2, hdec, hw1, hw2⟩ := stripList_decomp s.toList
  obtain ⟨inner, hm⟩ :=
    head_last_decomp (stripList s.toList) '\x7b' '\x7d' (by decide) hhead hlast
  have hdecomp : s.toList = w1 ++ ('\x7b' :: (inner ++ ['\x7d'])) ++ w2 := by
    rw [← hm]
    exact hdec
  have hfi : hasFence inner = false := by
    by_contra hcon
    simp only [Bool.not_eq_false] at hcon
    have h1 : hasFence ('\x7b' :: (inner ++ ['\x7d'])) = true := by
      rw [hasFence]
      simp only [Bool.or_eq_true]
      exact Or.inr (hasFence_append_left inner ['\x7d'] hcon)
    have h2 := hasFence_infix w1 _ w2 h1
    rw [← hdecomp] at h2
    exact absurd (show hasFence s.toList = true from h2)
      (fun hcc => by rw [hcc] at hfence; exact Bool.noConfusion hfence)
  have hfm : hasFence ('\x7b' :: (inner ++ ['\x7d'])) = false := by
    by_contra hcon
    simp only [Bool.not_eq_false] at hcon
    have h2 := hasFence_infix w1 _ w2 hcon
    rw [← hdecomp] at h2
    exact absurd (show hasFence s.toList = true from h2)
      (fun hcc => by rw [hcc] at hfence; exact Bool.noConfusion hfence)
  have hsearch := searchFence_wrapped s inner w1 w2 hdecomp hw1 hw2 hfi
  have hsnone := search_none_of_no_fence s.toList hfence
  have hc2 : extract_json s = pyStrip s := by
    simp only [extract_json, hsnone.1, hsnone.2.2]
  have hc1 : extract_json (wrapFence s) = pyStrip s := by
    simp only [extract_json, hsearch.1]
    rw [pyStrip, hm]
  refine ⟨hc1, hc2, ?_⟩
  have hwl : (wrapFence s).toList
      = btick :: btick :: btick :: 'j' :: 's' :: 'o' :: 'n' :: '\n'
          :: (s.toList ++ '\n' :: btick :: btick :: btick :: []) := by
    rw [wrapFence, toList_append, toList_append, List.append_assoc]
    rfl
  have hwrapStrip : pyStrip (wrapFence s) = wrapFence s := by
    rw [pyStrip, stripList_eq_self _ btick btick ?_ (by decide) ?_ (by decide), mk_toList]
    · rw [hwl]
      rfl
    · have hsplit : (wrapFence s).toList
          = (btick :: btick :: btick :: 'j' :: 's' :: 'o' :: 'n' :: '\n'
              :: (s.toList ++ ['\n', btick, btick])) ++ [btick] := by
        rw [hwl]
        simp
      rw [hsplit, List.getLast?_concat]
  have hmlast : ('\x7b' :: (inner ++ ['\x7d'])).getLast? = some '\x7d' := by
    have hsplit : '\x7b' :: (inner ++ ['\x7d']) = ('\x7b' :: inner) ++ ['\x7d'] := by
      simp
    rw [hsplit, List.getLast?_concat]
  have hmStrip : stripList ('\x7b' :: (inner ++ ['\x7d']))
      = '\x7b' :: (inner ++ ['\x7d']) :=
    stripList_eq_self _ '\x7b' '\x7d' rfl (by decide) hmlast (by decide)
  have hps : pyStrip s = String.mk ('\x7b' :: (inner ++ ['\x7d'])) := by
    rw [pyStrip, hm]
  have hpsm : pyStrip (String.mk ('\x7b' :: (inner ++ ['\x7d'])))
      = String.mk ('\x7b' :: (inner ++ ['\x7d'])) := by
    rw [pyStrip]
    exact congrArg String.mk hmStrip
  have hnone : searchFenceGreedy (String.mk ('\x7b' :: (inner ++ ['\x7d']))).toList
      = none := (search_none_of_no_fence _ hfm).2.1
  simp only [extract_json04, hwrapStrip, hsearch.2, hps, hnone, hpsm]

/-- C8 amended witness: the spec's own example payload
`\x7b"is_covid": "covid"\x7d`. -/
theorem c8_fence_free_extracts_identically_witness :
    extract_json (wrapFence ("\x7b\"is_covid\": \"covid\"\x7d"))
      = pyStrip ("\x7b\"is_covid\": \"covid\"\x7d")
    ∧ extract_json ("\x7b\"is_covid\": \"covid\"\x7d")
      = pyStrip ("\x7b\"is_covid\": \"covid\"\x7d")
    ∧ extract_json04 (wrapFence ("\x7b\"is_covid\": \"covid\"\x7d"))
      = extract_json04 ("\x7b\"is_covid\": \"covid\"\x7d") :=
  c8_fence_free_extracts_identically ("\x7b\"is_covid\": \"covid\"\x7d")
    [(("is_covid"), .jstr ("covid"))] rfl (by decide) rfl rfl
